import Mathlib

/-!
Verification of the `music_remover` audio separation engine
(`src/backend/audio_processor/{separator,filters,utils}.py`).

Audio buffers are modelled as `List ℚ` (exact stand-in for floating samples).
External DSP library routines (librosa `stft`/`istft`/`hpss`, scipy
`butter`+`filtfilt`, `np.sqrt`, `librosa.db_to_amplitude`) are not code of
this repository; they are gathered in a `Prims` record of abstract
operations, over which the repository's own pipeline code is embedded.
Complex spectrogram bins live in an abstract type `C` with magnitude
(`cabs`), phase (`cangle`) and polar reconstruction (`polar`, standing for
`mag * exp(1j * phase)`), so the per-bin arithmetic the repository performs
on magnitudes is fully explicit.
-/

namespace MusicRemover

/-! ### Basic list arithmetic (numpy elementwise operations) -/

/-- Elementwise sum of two equal-length buffers (`a + b` on numpy arrays). -/
def addL (a b : List ℚ) : List ℚ := List.zipWith (· + ·) a b

/-- Elementwise difference (`a - b` on numpy arrays). -/
def subL (a b : List ℚ) : List ℚ := List.zipWith (· - ·) a b

/-- Scalar-on-the-left product `c * a` on a numpy array. -/
def scaleC (c : ℚ) (a : List ℚ) : List ℚ := a.map (fun x => c * x)

/-- Scalar-on-the-right product `a * c` on a numpy array. -/
def scaleR (c : ℚ) (a : List ℚ) : List ℚ := a.map (fun x => x * c)

/-- Model of `np.mean` of a 1-D array. -/
def meanQ (l : List ℚ) : ℚ := l.sum / l.length

/-- Model of `np.max(np.abs(l))` for the nonnegative-peak computation. -/
def maxAbsL (l : List ℚ) : ℚ := (l.map (fun x => |x|)).foldr max 0

/-- Model of `np.mean(y, axis=0)`: pointwise mean across the channel rows. -/
def meanAxis0 (rows : List (List ℚ)) : List ℚ :=
  (List.range (rows.headD []).length).map
    (fun i => (rows.map (fun r => r.getD i 0)).sum / rows.length)

/-! ### External primitives -/

/-- The `btype` argument of `scipy.signal.butter`. -/
inductive FilterKind where
  | bandstop
  | band
  | high
  | low
deriving DecidableEq

/-- Abstract record of the external library routines used by the engine:
librosa's STFT/ISTFT and HPSS, scipy's Butterworth design plus `filtfilt`
(fused, since the repository always uses them together), `np.sqrt` and
`librosa.db_to_amplitude`.  `ι` indexes spectrogram bins, `C` is the type
of complex bin values. -/
structure Prims (ι : Type) (C : Type) where
  stft : ℕ → ℕ → List ℚ → ι → C
  istft : ℕ → (ι → C) → List ℚ
  cabs : C → ℚ
  cangle : C → ℚ
  polar : ℚ → ℚ → C
  filtfiltButter : ℕ → ℚ → ℚ → FilterKind → List ℚ → List ℚ
  hpss : ℚ × ℚ → Option (ℕ × ℕ) → List ℚ → List ℚ × List ℚ
  sqrtQ : ℚ → ℚ
  dbToAmp : ℚ → ℚ

/-! ### utils.normalize_audio -/

/-- Embedding of `utils.normalize_audio(audio, target_level=-3.0)`: RMS normalization with
peak-clip protection, translated line by line from `utils.py`. -/
def normalizeBuf {ι C : Type} (P : Prims ι C) (buf : List ℚ) : List ℚ :=
  if buf.length = 0 then buf
  else
    let rms := P.sqrtQ (meanQ (buf.map (fun a => a ^ 2)))
    if rms = 0 then buf
    else
      let targetRms := P.dbToAmp (-3)
      let gain := targetRms / rms
      let normalized := buf.map (fun a => a * gain)
      let peak := maxAbsL normalized
      if 1 < peak then normalized.map (fun a => a / peak * 0.95) else normalized

/-! ### separator.AudioSeparator._get_quality_params -/

/-- The `{n_fft, hop_length, win_length}` dictionary. -/
structure QualityParams where
  n_fft : ℕ
  hop_length : ℕ
  win_length : ℕ
deriving DecidableEq

/-- Embedding of `AudioSeparator._get_quality_params`: `low` and `medium` are matched
explicitly; everything else falls into the `else:  # high` branch. -/
def getQualityParams (quality : String) : QualityParams :=
  if quality = "low" then ⟨1024, 512, 1024⟩
  else if quality = "medium" then ⟨2048, 512, 2048⟩
  else ⟨4096, 1024, 4096⟩

/-! ### filters.py -/

/-- The clamp `max(0.01, min(0.99, x))` applied to normalized band edges. -/
def clampNorm (x : ℚ) : ℚ := max 0.01 (min 0.99 x)

/-- Embedding of `VocalRemovalFilter.apply_vocal_suppression_filter`: two conditional
bandstop passes over the ranges `[(80, 300), (2000, 4000)]`, each one a
Butterworth order-4 design applied with `filtfilt`, skipped when the
clamped edges are degenerate. -/
def applyVocalSuppression {ι C : Type} (P : Prims ι C) (buf : List ℚ) (sr : ℚ) : List ℚ :=
  let nyquist := sr / 2
  let ranges : List (ℚ × ℚ) := [(80, 300), (2000, 4000)]
  ranges.foldl
    (fun acc fr =>
      let low_norm := clampNorm (fr.1 / nyquist)
      let high_norm := clampNorm (fr.2 / nyquist)
      if low_norm < high_norm then
        P.filtfiltButter 4 low_norm high_norm FilterKind.bandstop acc
      else acc)
    buf

/-- Embedding of `FrequencyFilter.bandstop_filter(audio, sr, low_freq, high_freq, order)`. -/
def bandstopFilter {ι C : Type} (P : Prims ι C) (buf : List ℚ)
    (sr lo hi : ℚ) (order : ℕ) : List ℚ :=
  let nyquist := sr / 2
  let low_norm := clampNorm (lo / nyquist)
  let high_norm := clampNorm (hi / nyquist)
  if low_norm ≥ high_norm then buf
  else P.filtfiltButter order low_norm high_norm FilterKind.bandstop buf

/-- Embedding of `FrequencyFilter.bandpass_filter(audio, sr, low_freq, high_freq, order)`. -/
def bandpassFilter {ι C : Type} (P : Prims ι C) (buf : List ℚ)
    (sr lo hi : ℚ) (order : ℕ) : List ℚ :=
  let nyquist := sr / 2
  let low_norm := clampNorm (lo / nyquist)
  let high_norm := clampNorm (hi / nyquist)
  if low_norm ≥ high_norm then buf
  else P.filtfiltButter order low_norm high_norm FilterKind.band buf

/-! ### separator.py: the three separation methods -/

/-- Embedding of `AudioSeparator._vocal_removal`, audio computation (the interleaved
progress emissions are collected separately in `vrTrace`).  Translated
line by line: center-channel subtraction, left/right STFT, per-bin
similarity mask attenuating center-panned bins to 10%, reconstruction with
the left channel's phase, normalized 0.3/0.7 blend, vocal-suppression
bandstop pass, final normalization. -/
def vocalRemovalBuf {ι C : Type} (P : Prims ι C) (pr : QualityParams)
    (sr : ℚ) (rows : List (List ℚ)) : List ℚ :=
  let left := rows.getD 0 []
  let right := rows.getD 1 []
  let vocal_removed := subL left right
  let stft_left := P.stft pr.n_fft pr.hop_length left
  let stft_right := P.stft pr.n_fft pr.hop_length right
  let mag_left := fun i => P.cabs (stft_left i)
  let mag_right := fun i => P.cabs (stft_right i)
  let phase_left := fun i => P.cangle (stft_left i)
  let similarity := fun i =>
    min (mag_left i) (mag_right i) / (max (mag_left i) (mag_right i) + 1e-10)
  let vocal_mask := fun i => 0.8 < similarity i
  let mag_processed := fun i => if vocal_mask i then mag_left i * 0.1 else mag_left i
  let stft_processed := fun i => P.polar (mag_processed i) (phase_left i)
  let enhanced_removal := P.istft pr.hop_length stft_processed
  let vocal_removed_normalized := normalizeBuf P vocal_removed
  let enhanced_normalized := normalizeBuf P enhanced_removal
  let result := addL (scaleC 0.3 vocal_removed_normalized) (scaleC 0.7 enhanced_normalized)
  let result2 := applyVocalSuppression P result sr
  normalizeBuf P result2

/-- Progress values emitted inside `_vocal_removal`, in order. -/
def vrTrace : List ℚ := [0.4, 0.6, 0.7, 0.8]

/-- Embedding of `AudioSeparator._vocal_removal` as (progress trace, audio). -/
def vocalRemoval {ι C : Type} (P : Prims ι C) (pr : QualityParams)
    (sr : ℚ) (rows : List (List ℚ)) : List ℚ × List ℚ :=
  (vrTrace, vocalRemovalBuf P pr sr rows)

/-- Embedding of `AudioSeparator._instrumental_isolation`, audio computation:
stereo widening `(L+R)*0.7 + (L-R)*0.3`, HPSS with margins `(1.0, 5.0)`,
recombination `0.8*harmonic + 0.2*percussive`, normalization. -/
def instrumentalBuf {ι C : Type} (P : Prims ι C) (rows : List (List ℚ)) : List ℚ :=
  let left := rows.getD 0 []
  let right := rows.getD 1 []
  let stereo_enhancement := addL (scaleR 0.7 (addL left right)) (scaleR 0.3 (subL left right))
  let hp := P.hpss (1, 5) none stereo_enhancement
  let result := addL (scaleC 0.8 hp.1) (scaleC 0.2 hp.2)
  normalizeBuf P result

/-- Progress values emitted inside `_instrumental_isolation`. -/
def instrTrace : List ℚ := [0.4, 0.6, 0.8]

/-- Embedding of `AudioSeparator._instrumental_isolation` as (progress trace, audio). -/
def instrumentalIsolation {ι C : Type} (P : Prims ι C) (pr : QualityParams)
    (sr : ℚ) (rows : List (List ℚ)) : List ℚ × List ℚ :=
  (instrTrace, instrumentalBuf P rows)

/-- Embedding of `AudioSeparator._harmonic_percussive_separation`, audio computation:
mono mixdown, HPSS with margins `(1.0, 5.0)` and kernel `(17, 17)`,
keep the harmonic component, normalize. -/
def harmonicBuf {ι C : Type} (P : Prims ι C) (rows : List (List ℚ)) : List ℚ :=
  let mono := meanAxis0 rows
  let hp := P.hpss (1, 5) (some (17, 17)) mono
  let result := hp.1
  normalizeBuf P result

/-- Progress values emitted inside `_harmonic_percussive_separation`. -/
def hpTrace : List ℚ := [0.4, 0.7, 0.8]

/-- Embedding of `AudioSeparator._harmonic_percussive_separation` as (trace, audio). -/
def harmonicPercussive {ι C : Type} (P : Prims ι C) (pr : QualityParams)
    (sr : ℚ) (rows : List (List ℚ)) : List ℚ × List ℚ :=
  (hpTrace, harmonicBuf P rows)

/-! ### separator.AudioSeparator.process -/

/-- Shape-aware stand-in for the numpy array returned by
`librosa.load(..., mono=False)`: 1-D for mono input, 2-D otherwise. -/
inductive NDArray where
  | d1 (xs : List ℚ)
  | d2 (rows : List (List ℚ))
deriving DecidableEq

/-- Model of `y.ndim`. -/
def ndim : NDArray → ℕ
  | .d1 _ => 1
  | .d2 _ => 2

/-- The stereo-shaping step of `process`: mono is duplicated to two
channels, more than two channels are cut down to the first two. -/
def ensureStereo : NDArray → NDArray
  | .d1 xs => .d2 [xs, xs]
  | .d2 rows => if 2 < rows.length then .d2 (rows.take 2) else .d2 rows

/-- Channel rows of a (post-`ensureStereo`) array. -/
def rowsOf : NDArray → List (List ℚ)
  | .d1 xs => [xs]
  | .d2 rows => rows

/-- Error taxonomy raised by the engine itself: `process` raises
`ValueError(f"Unknown method: {method}")` for an unknown selector. -/
inductive SepError where
  | invalidMethod (method : String)
deriving DecidableEq

/-- The three method selectors `process` accepts. -/
def validMethods : List String :=
  ["vocal_removal", "instrumental_isolation", "harmonic_percussive"]

/-- Embedding of `AudioSeparator.process`: the loaded audio (`input`, `sr`) stands for
the result of `librosa.load(input_path, sr=None, mono=False)`.  Returns
the ordered list of values handed to `progress_callback` together with
either the processed buffer or the dispatch error.  Output packaging
(`_save_output`) writes the buffer out unchanged, so the `Except` carries
the processed audio itself. -/
def process {ι C : Type} (P : Prims ι C) (input : NDArray) (sr : ℚ)
    (method quality : String) : List ℚ × Except SepError NDArray :=
  let pre : List ℚ := [0.1, 0.2, 0.3]
  let y := ensureStereo input
  let rows := rowsOf y
  let pr := getQualityParams quality
  if method = "vocal_removal" then
    let m := vocalRemoval P pr sr rows
    (pre ++ m.1 ++ [0.9, 1.0], Except.ok (NDArray.d1 m.2))
  else if method = "instrumental_isolation" then
    let m := instrumentalIsolation P pr sr rows
    (pre ++ m.1 ++ [0.9, 1.0], Except.ok (NDArray.d1 m.2))
  else if method = "harmonic_percussive" then
    let m := harmonicPercussive P pr sr rows
    (pre ++ m.1 ++ [0.9, 1.0], Except.ok (NDArray.d1 m.2))
  else
    (pre, Except.error (SepError.invalidMethod method))

/-- Dimensionality of a successful result, `none` on error. -/
def ndimOfResult : Except SepError NDArray → Option ℕ
  | .ok a => some (ndim a)
  | .error _ => none

/-! ### separator.AudioSeparator._save_output -/

/-- Output container formats supported by `_save_output`. -/
inductive SndFormat where
  | wav
  | flac
deriving DecidableEq

/-- ASCII lowering of one character (`str.lower()` restricted to the ASCII
extensions the code compares against; kernel-computable, unlike
`String.toLower`). -/
def lowerChar (c : Char) : Char :=
  if c.isUpper then Char.ofNat (c.toNat + 32) else c

/-- ASCII `str.lower()` on a whole string. -/
def lowerStr (s : String) : String := ⟨s.data.map lowerChar⟩

/-- The extension `_save_output` keeps for the temporary file, given the
extension split off the original path: unrecognized extensions (checked
case-insensitively) are replaced by `.wav`, recognized ones are kept with
their original casing. -/
def chosenExt (ext : String) : String :=
  if ¬ (lowerStr ext ∈ [".wav", ".flac"]) then ".wav" else ext

/-- The container format handed to `sf.write`:
`format='WAV' if ext == '.wav' else 'FLAC'` (case-sensitive comparison on
the case-preserved extension). -/
def chosenFormat (ext : String) : SndFormat :=
  if chosenExt ext = ".wav" then SndFormat.wav else SndFormat.flac

/-! ### Spec-side restatement of the vocal-removal pipeline -/

/-- The vocal-removal pipeline as worded by the specification (§4.3) and
claim C1: similarity `s = min(|L|,|R|) / (max(|L|,|R|) + 1e-10)`, bins with
`s > 0.8` attenuated to 10% of original magnitude and all others left
unchanged, reconstruction with the left channel's phase, blend
`0.3*normalize(left - right) + 0.7*normalize(spectral result)`, bandstop
passes at `[80, 300]` and `[2000, 4000]` Hz, final normalization. -/
def vocalRemovalSpec {ι C : Type} (P : Prims ι C) (pr : QualityParams)
    (sr : ℚ) (left right : List ℚ) : List ℚ :=
  let removed := subL left right
  let L := P.stft pr.n_fft pr.hop_length left
  let R := P.stft pr.n_fft pr.hop_length right
  let s := fun i =>
    min (P.cabs (L i)) (P.cabs (R i)) / (max (P.cabs (L i)) (P.cabs (R i)) + 1e-10)
  let attenuated := fun i => if 0.8 < s i then 0.1 * P.cabs (L i) else P.cabs (L i)
  let spectralResult := P.istft pr.hop_length (fun i => P.polar (attenuated i) (P.cangle (L i)))
  let blend := addL (scaleC 0.3 (normalizeBuf P removed)) (scaleC 0.7 (normalizeBuf P spectralResult))
  let stage1 := bandstopFilter P blend sr 80 300 4
  let stage2 := bandstopFilter P stage1 sr 2000 4000 4
  normalizeBuf P stage2

/-! ### Shared helper lemmas -/

theorem ite_lt_flip {α : Type} (a b : ℚ) (x y : α) :
    (if a < b then x else y) = if b ≤ a then y else x := by
  rcases lt_or_ge a b with h | h
  · rw [if_pos h, if_neg (not_le.mpr h)]
  · rw [if_neg (not_lt.mpr h), if_pos h]

/-- The suppression filter of `filters.py` is exactly two cascaded
conditional bandstop passes at the vocal bands. -/
theorem suppression_as_bandstops {ι C : Type} (P : Prims ι C) (buf : List ℚ) (sr : ℚ) :
    applyVocalSuppression P buf sr =
      bandstopFilter P (bandstopFilter P buf sr 80 300 4) sr 2000 4000 4 := by
  simp only [applyVocalSuppression, bandstopFilter, List.foldl]
  rw [ite_lt_flip, ite_lt_flip]

/-! ### Concrete primitive instances used by witnesses -/

/-- A degenerate instantiation of the external primitives: every
spectrogram bin collapses to `Unit`, `istft` returns the empty buffer,
`filtfilt` discards its input. -/
def trivPrims : Prims Unit Unit where
  stft := fun _ _ _ _ => ()
  istft := fun _ _ => []
  cabs := fun _ => 0
  cangle := fun _ => 0
  polar := fun _ _ => ()
  filtfiltButter := fun _ _ _ _ _ => []
  hpss := fun _ _ l => (l, l)
  sqrtQ := fun _ => 0
  dbToAmp := fun _ => 1

/-! ### Zero-buffer propagation helpers -/

theorem zipWith_zero (f : ℚ → ℚ → ℚ) (h : f 0 0 = 0) (n : ℕ) :
    List.zipWith f (List.replicate n 0) (List.replicate n 0) = List.replicate n 0 := by
  induction n with
  | zero => rfl
  | succ k ih => simp [List.replicate_succ, List.zipWith_cons_cons, h, ih]

theorem map_zero_of (f : ℚ → ℚ) (h : f 0 = 0) (n : ℕ) :
    (List.replicate n (0 : ℚ)).map f = List.replicate n 0 := by
  simp [List.map_replicate, h]

theorem getD_rep (n i : ℕ) : (List.replicate n (0 : ℚ)).getD i 0 = 0 := by
  induction n generalizing i with
  | zero => rfl
  | succ k ih =>
    cases i with
    | zero => rfl
    | succ j => simpa [List.replicate_succ, List.getD] using ih j

theorem meanQ_zero (n : ℕ) : meanQ (List.replicate n (0 : ℚ)) = 0 := by
  simp [meanQ, List.sum_replicate]

theorem addL_zero (n : ℕ) :
    addL (List.replicate n 0) (List.replicate n 0) = List.replicate n 0 := by
  unfold addL
  exact zipWith_zero _ (by norm_num) n

theorem subL_zero (n : ℕ) :
    subL (List.replicate n 0) (List.replicate n 0) = List.replicate n 0 := by
  unfold subL
  exact zipWith_zero _ (by norm_num) n

theorem scaleC_zero (c : ℚ) (n : ℕ) :
    scaleC c (List.replicate n 0) = List.replicate n 0 := by
  unfold scaleC
  exact map_zero_of _ (by norm_num) n

theorem scaleR_zero (c : ℚ) (n : ℕ) :
    scaleR c (List.replicate n 0) = List.replicate n 0 := by
  unfold scaleR
  exact map_zero_of _ (by norm_num) n

theorem meanAxis0_zero (n : ℕ) :
    meanAxis0 [List.replicate n (0 : ℚ), List.replicate n 0] = List.replicate n 0 := by
  simp [meanAxis0, getD_rep, List.map_const']

/-- An all-zero buffer has zero RMS, so `normalize_audio` returns it
unchanged (given that the square-root primitive maps 0 to 0). -/
theorem normalizeBuf_zero {ι C : Type} (P : Prims ι C) (hsq0 : P.sqrtQ 0 = 0) (n : ℕ) :
    normalizeBuf P (List.replicate n 0) = List.replicate n 0 := by
  have h2 : (List.replicate n (0 : ℚ)).map (fun a => a ^ 2) = List.replicate n 0 :=
    map_zero_of _ (by norm_num) n
  simp only [normalizeBuf, h2, meanQ_zero, hsq0]
  simp

/-- Both conditional bandstop passes of the suppression filter map the
all-zero buffer to itself. -/
theorem suppression_zero {ι C : Type} (P : Prims ι C) (sr : ℚ) (n : ℕ)
    (hfilt0 : ∀ o lo hi k, P.filtfiltButter o lo hi k (List.replicate n 0) = List.replicate n 0) :
    applyVocalSuppression P (List.replicate n 0) sr = List.replicate n 0 := by
  have step : ∀ q1 q2 : ℚ,
      (if q1 < q2 then P.filtfiltButter 4 q1 q2 FilterKind.bandstop (List.replicate n 0)
        else List.replicate n 0) = List.replicate n 0 := by
    intro q1 q2
    split
    · exact hfilt0 _ _ _ _
    · rfl
  simp only [applyVocalSuppression, List.foldl]
  rw [step, step]

/-- The method `_vocal_removal` maps an all-zero stereo input to the all-zero buffer:
zero magnitudes give similarity `0/(0 + 1e-10) = 0 ≤ 0.8`, so no bin is
attenuated, and every later stage preserves the zero buffer. -/
theorem vocal_zero {ι C : Type} (P : Prims ι C) (pr : QualityParams) (sr : ℚ) (n : ℕ)
    (hsq0 : P.sqrtQ 0 = 0)
    (hstft0 : ∀ i : ι, P.cabs (P.stft pr.n_fft pr.hop_length (List.replicate n 0) i) = 0)
    (histft0 : P.istft pr.hop_length
        (fun i => P.polar 0 (P.cangle (P.stft pr.n_fft pr.hop_length (List.replicate n 0) i))) =
      List.replicate n 0)
    (hfilt0 : ∀ o lo hi k, P.filtfiltButter o lo hi k (List.replicate n 0) = List.replicate n 0) :
    vocalRemovalBuf P pr sr [List.replicate n 0, List.replicate n 0] = List.replicate n 0 := by
  simp only [vocalRemovalBuf, List.getD_cons_zero, List.getD_cons_succ]
  have henh : P.istft pr.hop_length
      (fun i => P.polar
        (if 0.8 < min (P.cabs (P.stft pr.n_fft pr.hop_length (List.replicate n 0) i))
                    (P.cabs (P.stft pr.n_fft pr.hop_length (List.replicate n 0) i)) /
                  (max (P.cabs (P.stft pr.n_fft pr.hop_length (List.replicate n 0) i))
                    (P.cabs (P.stft pr.n_fft pr.hop_length (List.replicate n 0) i)) + 1e-10) then
          P.cabs (P.stft pr.n_fft pr.hop_length (List.replicate n 0) i) * 0.1
        else P.cabs (P.stft pr.n_fft pr.hop_length (List.replicate n 0) i))
        (P.cangle (P.stft pr.n_fft pr.hop_length (List.replicate n 0) i))) =
      List.replicate n 0 := by
    refine Eq.trans ?_ histft0
    congr 1
    funext i
    simp only [hstft0]
    norm_num
  rw [subL_zero, henh, normalizeBuf_zero P hsq0,
    scaleC_zero, scaleC_zero, addL_zero, suppression_zero P sr n hfilt0,
    normalizeBuf_zero P hsq0]

/-- The method `_instrumental_isolation` maps an all-zero stereo input to the
all-zero buffer. -/
theorem instr_zero {ι C : Type} (P : Prims ι C) (n : ℕ)
    (hsq0 : P.sqrtQ 0 = 0)
    (hhpssN : P.hpss (1, 5) none (List.replicate n 0) = (List.replicate n 0, List.replicate n 0)) :
    instrumentalBuf P [List.replicate n 0, List.replicate n 0] = List.replicate n 0 := by
  simp only [instrumentalBuf, List.getD_cons_zero, List.getD_cons_succ]
  rw [addL_zero, subL_zero, scaleR_zero, scaleR_zero, addL_zero, hhpssN]
  dsimp only
  rw [scaleC_zero, scaleC_zero, addL_zero, normalizeBuf_zero P hsq0]

/-- The method `_harmonic_percussive_separation` maps an all-zero stereo input to the
all-zero buffer. -/
theorem harm_zero {ι C : Type} (P : Prims ι C) (n : ℕ)
    (hsq0 : P.sqrtQ 0 = 0)
    (hhpssK : P.hpss (1, 5) (some (17, 17)) (List.replicate n 0) =
      (List.replicate n 0, List.replicate n 0)) :
    harmonicBuf P [List.replicate n 0, List.replicate n 0] = List.replicate n 0 := by
  simp only [harmonicBuf]
  rw [meanAxis0_zero, hhpssK]
  exact normalizeBuf_zero P hsq0 n

/-! ### Normalization algebra -/

theorem meanSq_nonneg (x : List ℚ) : 0 ≤ meanQ (x.map fun a => a ^ 2) := by
  unfold meanQ
  apply div_nonneg
  · apply List.sum_nonneg
    intro a ha
    obtain ⟨b, _, rfl⟩ := List.mem_map.mp ha
    positivity
  · positivity

theorem meanQ_map_mul (l : List ℚ) (k : ℚ) : meanQ (l.map fun b => b * k) = meanQ l * k := by
  unfold meanQ
  rw [List.length_map, List.sum_map_mul_right, List.map_id']
  exact mul_div_right_comm _ _ _

theorem meanQ_sq_scale (x : List ℚ) (c : ℚ) :
    meanQ ((x.map fun a => a * c).map fun a => a ^ 2) =
      meanQ (x.map fun a => a ^ 2) * c ^ 2 := by
  have h : (x.map fun a => a * c).map (fun a => a ^ 2) =
      (x.map fun a => a ^ 2).map fun b => b * c ^ 2 := by
    rw [List.map_map, List.map_map]
    congr 1
    funext a
    simp only [Function.comp]
    ring
  rw [h, meanQ_map_mul]

/-- The function `normalize_audio` is invariant under a positive prescaling of a buffer
with nonzero RMS: the gain cancels the scale exactly. -/
theorem normalizeBuf_scale {ι C : Type} (P : Prims ι C)
    (hsq : ∀ c m : ℚ, 0 ≤ m → P.sqrtQ (c ^ 2 * m) = |c| * P.sqrtQ m)
    (x : List ℚ) (c : ℚ) (hc : 0 < c)
    (hrms : P.sqrtQ (meanQ (x.map fun a => a ^ 2)) ≠ 0) :
    normalizeBuf P (x.map fun a => a * c) = normalizeBuf P x := by
  rcases eq_or_ne x [] with rfl | hx
  · rfl
  · have hxlen : ¬(x.length = 0) := fun h => hx (List.length_eq_zero.mp h)
    have hm : 0 ≤ meanQ (x.map fun a => a ^ 2) := meanSq_nonneg x
    have hsc : P.sqrtQ (meanQ ((x.map fun a => a * c).map fun a => a ^ 2)) =
        c * P.sqrtQ (meanQ (x.map fun a => a ^ 2)) := by
      rw [meanQ_sq_scale, mul_comm (meanQ (x.map fun a => a ^ 2)) (c ^ 2),
        hsq c _ hm, abs_of_pos hc]
    have hsc0 : c * P.sqrtQ (meanQ (x.map fun a => a ^ 2)) ≠ 0 :=
      mul_ne_zero (ne_of_gt hc) hrms
    have hnorm : (x.map fun a => a * c).map
          (fun a => a * (P.dbToAmp (-3) / (c * P.sqrtQ (meanQ (x.map fun a => a ^ 2))))) =
        x.map (fun a => a * (P.dbToAmp (-3) / P.sqrtQ (meanQ (x.map fun a => a ^ 2)))) := by
      rw [List.map_map]
      congr 1
      funext a
      simp only [Function.comp]
      have hcne : c ≠ 0 := ne_of_gt hc
      field_simp
      ring
    simp only [normalizeBuf, List.length_map]
    rw [if_neg hxlen, if_neg hxlen, hsc, if_neg hsc0, if_neg hrms, hnorm]

/-! ### Claim theorems -/

/-- Claim C1: for every stereo input the vocal-removal method computes the
per-bin similarity `min(|L|,|R|) / (max(|L|,|R|) + 1e-10)`, attenuates
exactly the bins with similarity above 0.8 to 10% of their original
magnitude (leaving all other bins unchanged), reconstructs with the left
channel's phase, and returns the final normalization of the blend
`0.3*normalize(left - right) + 0.7*normalize(spectral result)` passed
through bandstop filters at `[80, 300]` and `[2000, 4000]` Hz — i.e. the
code path equals the spec-side pipeline, for every choice of external
spectral primitives. -/
theorem vocal_removal_matches_spec {ι C : Type} (P : Prims ι C) (pr : QualityParams)
    (sr : ℚ) (left right : List ℚ) :
    vocalRemovalBuf P pr sr [left, right] = vocalRemovalSpec P pr sr left right := by
  simp only [vocalRemovalBuf, vocalRemovalSpec, List.getD_cons_zero, List.getD_cons_succ]
  rw [suppression_as_bandstops]
  have hist :
      (fun i => P.polar
        (if 0.8 < min (P.cabs (P.stft pr.n_fft pr.hop_length left i))
                    (P.cabs (P.stft pr.n_fft pr.hop_length right i)) /
                  (max (P.cabs (P.stft pr.n_fft pr.hop_length left i))
                    (P.cabs (P.stft pr.n_fft pr.hop_length right i)) + 1e-10) then
            P.cabs (P.stft pr.n_fft pr.hop_length left i) * 0.1
          else P.cabs (P.stft pr.n_fft pr.hop_length left i))
        (P.cangle (P.stft pr.n_fft pr.hop_length left i))) =
      (fun i => P.polar
        (if 0.8 < min (P.cabs (P.stft pr.n_fft pr.hop_length left i))
                    (P.cabs (P.stft pr.n_fft pr.hop_length right i)) /
                  (max (P.cabs (P.stft pr.n_fft pr.hop_length left i))
                    (P.cabs (P.stft pr.n_fft pr.hop_length right i)) + 1e-10) then
            0.1 * P.cabs (P.stft pr.n_fft pr.hop_length left i)
          else P.cabs (P.stft pr.n_fft pr.hop_length left i))
        (P.cangle (P.stft pr.n_fft pr.hop_length left i))) := by
    funext i
    rw [mul_comm (P.cabs (P.stft pr.n_fft pr.hop_length left i)) 0.1]
  rw [hist]

/-- The progress contract stated by the spec: non-decreasing values in
`[0, 1]`, final value exactly `1.0`. -/
def progressOk (t : List ℚ) : Prop :=
  List.Chain' (· ≤ ·) t ∧ (∀ v ∈ t, 0 ≤ v ∧ v ≤ 1) ∧ t.getLast? = some 1.0

/-- Claim C2: for every successful call to `process` with any of the three
valid methods and any quality, the sequence of values delivered to the
progress callback is non-decreasing, every value lies in `[0, 1]`, and the
final value emitted before return is exactly `1.0`. -/
theorem process_progress {ι C : Type} (P : Prims ι C) (input : NDArray) (sr : ℚ)
    (quality method : String) (h : method ∈ validMethods) :
    progressOk (process P input sr method quality).1 := by
  simp only [validMethods, List.mem_cons, List.not_mem_nil, or_false] at h
  rcases h with rfl | rfl | rfl
  · show progressOk [0.1, 0.2, 0.3, 0.4, 0.6, 0.7, 0.8, 0.9, 1.0]
    unfold progressOk
    refine ⟨?_, ?_, rfl⟩ <;> norm_num [List.chain'_cons, List.forall_mem_cons]
  · show progressOk [0.1, 0.2, 0.3, 0.4, 0.6, 0.8, 0.9, 1.0]
    unfold progressOk
    refine ⟨?_, ?_, rfl⟩ <;> norm_num [List.chain'_cons, List.forall_mem_cons]
  · show progressOk [0.1, 0.2, 0.3, 0.4, 0.7, 0.8, 0.9, 1.0]
    unfold progressOk
    refine ⟨?_, ?_, rfl⟩ <;> norm_num [List.chain'_cons, List.forall_mem_cons]

theorem process_progress_witness :
    "vocal_removal" ∈ validMethods ∧
      progressOk (process trivPrims (NDArray.d1 []) 0 "vocal_removal" "medium").1 :=
  ⟨by decide,
    process_progress trivPrims (NDArray.d1 []) 0 "medium" "vocal_removal" (by decide)⟩

/-- Claim C3: a method selector outside the valid set makes `process`
raise the input-validation error `InvalidMethod` (never a result, never a
different failure), and each valid selector dispatches to its
corresponding separation method. -/
theorem process_dispatch {ι C : Type} (P : Prims ι C) (input : NDArray) (sr : ℚ)
    (quality method : String) :
    (method ∉ validMethods →
      (process P input sr method quality).2 =
        Except.error (SepError.invalidMethod method)) ∧
    (process P input sr "vocal_removal" quality).2 =
      Except.ok (NDArray.d1
        (vocalRemovalBuf P (getQualityParams quality) sr (rowsOf (ensureStereo input)))) ∧
    (process P input sr "instrumental_isolation" quality).2 =
      Except.ok (NDArray.d1 (instrumentalBuf P (rowsOf (ensureStereo input)))) ∧
    (process P input sr "harmonic_percussive" quality).2 =
      Except.ok (NDArray.d1 (harmonicBuf P (rowsOf (ensureStereo input)))) := by
  refine ⟨?_, rfl, rfl, rfl⟩
  intro h
  simp only [validMethods, List.mem_cons, List.not_mem_nil, or_false, not_or] at h
  obtain ⟨h1, h2, h3⟩ := h
  simp only [process]
  rw [if_neg h1, if_neg h2, if_neg h3]

theorem process_dispatch_witness :
    "bogus" ∉ validMethods ∧
      (process trivPrims (NDArray.d1 []) 0 "bogus" "medium").2 =
        Except.error (SepError.invalidMethod "bogus") :=
  ⟨by decide, (process_dispatch trivPrims (NDArray.d1 []) 0 "medium" "bogus").1 (by decide)⟩

/-- Claim C10: regardless of the input's shape (mono, stereo, or more than
two channels), every one of the three separation methods hands back a
single-channel (1-D) buffer through `process`; in particular the output
dimensionality is never the 2-D shape of a stereo input. -/
theorem process_output_one_dim {ι C : Type} (P : Prims ι C) (input : NDArray) (sr : ℚ)
    (quality method : String) (h : method ∈ validMethods) :
    ndimOfResult (process P input sr method quality).2 = some 1 ∧
      ndimOfResult (process P input sr method quality).2 ≠ some 2 := by
  have k : ∀ o : Except SepError NDArray, ndimOfResult o = some 1 → ndimOfResult o ≠ some 2 := by
    intro o h1 h2
    rw [h1] at h2
    exact absurd h2 (by decide)
  simp only [validMethods, List.mem_cons, List.not_mem_nil, or_false] at h
  rcases h with rfl | rfl | rfl <;> exact ⟨rfl, k _ rfl⟩

theorem process_output_one_dim_witness :
    "harmonic_percussive" ∈ validMethods ∧
      (ndimOfResult
          (process trivPrims (NDArray.d2 [[1], [2], [3]]) 0 "harmonic_percussive" "low").2 =
        some 1 ∧
      ndimOfResult
          (process trivPrims (NDArray.d2 [[1], [2], [3]]) 0 "harmonic_percussive" "low").2 ≠
        some 2) :=
  ⟨by decide,
    process_output_one_dim trivPrims (NDArray.d2 [[1], [2], [3]]) 0 "low"
      "harmonic_percussive" (by decide)⟩

/-- Claim C4 (counterexample): an unknown quality string does not resolve
to the `medium` parameter triple. -/
theorem quality_unknown_cex : getQualityParams "ultra" ≠ getQualityParams "medium" := by
  decide

/-- Claim C4 (amended): every quality string other than `low` and `medium`
— in particular every unknown one — resolves to the `high` tier
`(n_fft 4096, hop 1024, win 4096)`, because the resolver's trailing `else`
branch is the `high` branch. -/
theorem quality_unknown_defaults_high (q : String)
    (h1 : q ≠ "low") (h2 : q ≠ "medium") :
    getQualityParams q = ⟨4096, 1024, 4096⟩ ∧
      getQualityParams q = getQualityParams "high" := by
  have h : getQualityParams q = ⟨4096, 1024, 4096⟩ := by
    unfold getQualityParams
    rw [if_neg h1, if_neg h2]
  exact ⟨h, by rw [h]; decide⟩

theorem quality_unknown_defaults_high_witness :
    "ultra" ≠ "low" ∧ "ultra" ≠ "medium" ∧
      (getQualityParams "ultra" = ⟨4096, 1024, 4096⟩ ∧
        getQualityParams "ultra" = getQualityParams "high") :=
  ⟨by decide, by decide, quality_unknown_defaults_high "ultra" (by decide) (by decide)⟩

/-- Claim C8: whenever the clamped low edge is not strictly below the
clamped high edge, both `bandstop_filter` and `bandpass_filter` return the
input buffer unchanged (degenerate bands are a no-op, not an error). -/
theorem degenerate_band_identity {ι C : Type} (P : Prims ι C) (buf : List ℚ)
    (sr lo hi : ℚ) (order : ℕ)
    (h : ¬ clampNorm (lo / (sr / 2)) < clampNorm (hi / (sr / 2))) :
    bandstopFilter P buf sr lo hi order = buf ∧
      bandpassFilter P buf sr lo hi order = buf := by
  constructor
  · simp only [bandstopFilter]
    rw [if_pos (not_lt.mp h)]
  · simp only [bandpassFilter]
    rw [if_pos (not_lt.mp h)]

theorem degenerate_band_identity_witness :
    (¬ clampNorm (300 / ((44100 : ℚ) / 2)) < clampNorm (80 / ((44100 : ℚ) / 2))) ∧
      (bandstopFilter trivPrims [1, 2, 3] 44100 300 80 5 = [1, 2, 3] ∧
        bandpassFilter trivPrims [1, 2, 3] 44100 300 80 5 = [1, 2, 3]) :=
  ⟨by norm_num [clampNorm],
    degenerate_band_identity trivPrims [1, 2, 3] 44100 300 80 5 (by norm_num [clampNorm])⟩

/-- Exact rational square root used to witness the square-root
hypotheses: the nonnegative rational root when one exists, 0 otherwise. -/
def ratSqrt (q : ℚ) : ℚ := if Rat.sqrt q * Rat.sqrt q = q then Rat.sqrt q else 0

theorem ratSqrt_nonneg (q : ℚ) : 0 ≤ ratSqrt q := by
  unfold ratSqrt
  split
  · exact Rat.sqrt_nonneg q
  · exact le_refl 0

theorem ratSqrt_sq (s : ℚ) (hs : 0 ≤ s) : ratSqrt (s * s) = s := by
  unfold ratSqrt
  rw [Rat.sqrt_eq, abs_of_nonneg hs, if_pos rfl]

theorem ratSqrt_zero_of (q : ℚ) (h : ∀ s : ℚ, 0 ≤ s → s * s ≠ q) : ratSqrt q = 0 := by
  unfold ratSqrt
  split
  · next hq => exact absurd hq (h _ (Rat.sqrt_nonneg q))
  · rfl

/-- The function `ratSqrt` commutes with squares exactly as the real square root does on
nonnegative arguments. -/
theorem ratSqrt_scale (c m : ℚ) (hm : 0 ≤ m) : ratSqrt (c ^ 2 * m) = |c| * ratSqrt m := by
  by_cases hem : ∃ s : ℚ, 0 ≤ s ∧ s * s = m
  · obtain ⟨s, hs0, hss⟩ := hem
    have h1 : ratSqrt m = s := by rw [← hss, ratSqrt_sq s hs0]
    have h2 : c ^ 2 * m = (|c| * s) * (|c| * s) := by
      rw [← hss, pow_two, ← abs_mul_abs_self c]
      ring
    rw [h2, ratSqrt_sq _ (mul_nonneg (abs_nonneg c) hs0), h1]
  · have h1 : ratSqrt m = 0 := ratSqrt_zero_of m (fun s hs hss => hem ⟨s, hs, hss⟩)
    by_cases hc : c = 0
    · subst hc
      norm_num
      simpa using ratSqrt_sq 0 le_rfl
    · have h2 : ratSqrt (c ^ 2 * m) = 0 := by
        apply ratSqrt_zero_of
        intro t ht htt
        apply hem
        refine ⟨t / |c|, div_nonneg ht (abs_nonneg c), ?_⟩
        rw [div_mul_div_comm, htt, abs_mul_abs_self, pow_two]
        exact mul_div_cancel_left₀ m (mul_ne_zero hc hc)
      rw [h1, h2, mul_zero]

/-- Concrete primitives for the normalization witness: the square-root
slot is the exact rational square root, the dB-conversion slot a positive
rational approximation of `10^(-3/20)`. -/
def qPrims : Prims Unit Unit where
  stft := fun _ _ _ _ => ()
  istft := fun _ _ => []
  cabs := fun _ => 0
  cangle := fun _ => 0
  polar := fun _ _ => ()
  filtfiltButter := fun _ _ _ _ l => l
  hpss := fun _ _ l => (l, l)
  sqrtQ := ratSqrt
  dbToAmp := fun _ => 7079 / 10000

/-- Claim C7: normalization is idempotent.  For every non-empty buffer,
`normalize(normalize(x)) = normalize(x)` — exactly, in the rational model —
including the branch where peak-clip protection rescales to peak 0.95.
The square-root and dB-conversion primitives are constrained only by the
properties of their real counterparts: `sqrt(c^2*m) = |c|*sqrt(m)`,
`sqrt(m) ≥ 0` for `m ≥ 0`, and `db_to_amplitude(-3) = 10^(-3/20) > 0`. -/
theorem normalize_idem {ι C : Type} (P : Prims ι C)
    (hsq : ∀ c m : ℚ, 0 ≤ m → P.sqrtQ (c ^ 2 * m) = |c| * P.sqrtQ m)
    (hnn : ∀ m : ℚ, 0 ≤ m → 0 ≤ P.sqrtQ m)
    (hT : 0 < P.dbToAmp (-3))
    (x : List ℚ) (hx : x ≠ []) :
    normalizeBuf P (normalizeBuf P x) = normalizeBuf P x := by
  have hxlen : ¬(x.length = 0) := fun h => hx (List.length_eq_zero.mp h)
  by_cases hrms : P.sqrtQ (meanQ (x.map fun a => a ^ 2)) = 0
  · have h0 : normalizeBuf P x = x := by
      simp only [normalizeBuf]
      rw [if_neg hxlen, if_pos hrms]
    conv_lhs => rw [h0]
  · have hrpos : 0 < P.sqrtQ (meanQ (x.map fun a => a ^ 2)) :=
      lt_of_le_of_ne (hnn _ (meanSq_nonneg x)) (Ne.symm hrms)
    have hgain : 0 < P.dbToAmp (-3) / P.sqrtQ (meanQ (x.map fun a => a ^ 2)) :=
      div_pos hT hrpos
    have hchar : normalizeBuf P x =
        (if 1 < maxAbsL (x.map fun a =>
              a * (P.dbToAmp (-3) / P.sqrtQ (meanQ (x.map fun a => a ^ 2)))) then
          (x.map fun a =>
              a * (P.dbToAmp (-3) / P.sqrtQ (meanQ (x.map fun a => a ^ 2)))).map
            (fun a => a / maxAbsL (x.map fun a =>
              a * (P.dbToAmp (-3) / P.sqrtQ (meanQ (x.map fun a => a ^ 2)))) * 0.95)
        else x.map fun a =>
          a * (P.dbToAmp (-3) / P.sqrtQ (meanQ (x.map fun a => a ^ 2)))) := by
      simp only [normalizeBuf]
      rw [if_neg hxlen, if_neg hrms]
    by_cases hpeak : 1 < maxAbsL (x.map fun a =>
        a * (P.dbToAmp (-3) / P.sqrtQ (meanQ (x.map fun a => a ^ 2))))
    · have hchar2 : normalizeBuf P x = x.map fun a =>
          a * ((P.dbToAmp (-3) / P.sqrtQ (meanQ (x.map fun a => a ^ 2))) *
            (0.95 / maxAbsL (x.map fun a =>
              a * (P.dbToAmp (-3) / P.sqrtQ (meanQ (x.map fun a => a ^ 2)))))) := by
        rw [hchar, if_pos hpeak, List.map_map]
        congr 1
        funext a
        simp only [Function.comp]
        ring
      have hc' : 0 < (P.dbToAmp (-3) / P.sqrtQ (meanQ (x.map fun a => a ^ 2))) *
          (0.95 / maxAbsL (x.map fun a =>
            a * (P.dbToAmp (-3) / P.sqrtQ (meanQ (x.map fun a => a ^ 2))))) :=
        mul_pos hgain (div_pos (by norm_num) (lt_trans one_pos hpeak))
      calc normalizeBuf P (normalizeBuf P x)
          = normalizeBuf P (x.map fun a =>
              a * ((P.dbToAmp (-3) / P.sqrtQ (meanQ (x.map fun a => a ^ 2))) *
                (0.95 / maxAbsL (x.map fun a =>
                  a * (P.dbToAmp (-3) / P.sqrtQ (meanQ (x.map fun a => a ^ 2))))))) := by
            rw [hchar2]
        _ = normalizeBuf P x := normalizeBuf_scale P hsq x _ hc' hrms
    · have hchar2 : normalizeBuf P x = x.map fun a =>
          a * (P.dbToAmp (-3) / P.sqrtQ (meanQ (x.map fun a => a ^ 2))) := by
        rw [hchar, if_neg hpeak]
      calc normalizeBuf P (normalizeBuf P x)
          = normalizeBuf P (x.map fun a =>
              a * (P.dbToAmp (-3) / P.sqrtQ (meanQ (x.map fun a => a ^ 2)))) := by
            rw [hchar2]
        _ = normalizeBuf P x := normalizeBuf_scale P hsq x _ hgain hrms

theorem normalize_idem_witness :
    ([1, 2] : List ℚ) ≠ [] ∧
      normalizeBuf qPrims (normalizeBuf qPrims [1, 2]) = normalizeBuf qPrims [1, 2] :=
  ⟨by simp,
    normalize_idem qPrims (fun c m hm => ratSqrt_scale c m hm)
      (fun m _ => ratSqrt_nonneg m)
      (show (0 : ℚ) < 7079 / 10000 by norm_num)
      [1, 2] (by simp)⟩

/-- A concrete instantiation of the external primitives used to witness
the silence claim at buffer length 3: `istft` reconstructs a length-3
buffer, `filtfilt` and `hpss` are the identity-shaped maps. -/
def zeroPrims : Prims Unit Unit where
  stft := fun _ _ _ _ => ()
  istft := fun _ _ => List.replicate 3 0
  cabs := fun _ => 0
  cangle := fun _ => 0
  polar := fun _ _ => ()
  filtfiltButter := fun _ _ _ _ l => l
  hpss := fun _ _ l => (l, l)
  sqrtQ := fun _ => 0
  dbToAmp := fun _ => 1

/-- Claim C5 (spec-modelled external primitives): for every all-zero
stereo input of any length `n` — no divisibility constraint relates `n`
to the hop size — each of the three separation methods completes (the
embedding is a total function, so no exception is modelled as reachable)
and returns the all-zero buffer.  The external librosa/scipy primitives
are constrained only by their spec-described behavior on silence: an
all-zero buffer has all-zero STFT magnitudes, a zero-magnitude spectrogram
reconstructs to the all-zero buffer of the original length, and the linear
`filtfilt` and `hpss` operators preserve the zero buffer. -/
theorem silence_all_methods {ι C : Type} (P : Prims ι C) (pr : QualityParams)
    (sr : ℚ) (n : ℕ)
    (hsq0 : P.sqrtQ 0 = 0)
    (hstft0 : ∀ i : ι, P.cabs (P.stft pr.n_fft pr.hop_length (List.replicate n 0) i) = 0)
    (histft0 : P.istft pr.hop_length
        (fun i => P.polar 0 (P.cangle (P.stft pr.n_fft pr.hop_length (List.replicate n 0) i))) =
      List.replicate n 0)
    (hfilt0 : ∀ o lo hi k, P.filtfiltButter o lo hi k (List.replicate n 0) = List.replicate n 0)
    (hhpssN : P.hpss (1, 5) none (List.replicate n 0) = (List.replicate n 0, List.replicate n 0))
    (hhpssK : P.hpss (1, 5) (some (17, 17)) (List.replicate n 0) =
      (List.replicate n 0, List.replicate n 0)) :
    vocalRemovalBuf P pr sr [List.replicate n 0, List.replicate n 0] = List.replicate n 0 ∧
      instrumentalBuf P [List.replicate n 0, List.replicate n 0] = List.replicate n 0 ∧
      harmonicBuf P [List.replicate n 0, List.replicate n 0] = List.replicate n 0 :=
  ⟨vocal_zero P pr sr n hsq0 hstft0 histft0 hfilt0,
    instr_zero P n hsq0 hhpssN,
    harm_zero P n hsq0 hhpssK⟩

theorem silence_all_methods_witness :
    vocalRemovalBuf zeroPrims ⟨2048, 512, 2048⟩ 44100
        [List.replicate 3 0, List.replicate 3 0] = List.replicate 3 0 ∧
      instrumentalBuf zeroPrims [List.replicate 3 0, List.replicate 3 0] =
        List.replicate 3 0 ∧
      harmonicBuf zeroPrims [List.replicate 3 0, List.replicate 3 0] =
        List.replicate 3 0 :=
  silence_all_methods zeroPrims ⟨2048, 512, 2048⟩ 44100 3 rfl (fun _ => rfl) rfl
    (fun _ _ _ _ => rfl) rfl rfl

/-- Claim C6 (counterexample, spec-modelled external primitives): a
zero-length input buffer does not make processing fail — the repository's
own `normalize_audio` explicitly returns an empty buffer unchanged
(`if len(audio) == 0: return audio`), `process` contains no emptiness
check, and with the spec-described primitives the whole vocal-removal
pipeline returns a successful empty output. -/
theorem empty_input_cex :
    normalizeBuf trivPrims [] = [] ∧
      (process trivPrims (NDArray.d1 []) 44100 "vocal_removal" "medium").2 =
        Except.ok (NDArray.d1 []) ∧
      (process trivPrims (NDArray.d1 []) 44100 "vocal_removal" "medium").2 ≠
        Except.error (SepError.invalidMethod "vocal_removal") := by
  have hv := vocal_zero trivPrims ⟨2048, 512, 2048⟩ 44100 0 rfl (fun _ => rfl) rfl
    (fun _ _ _ _ => rfl)
  refine ⟨rfl, ?_, ?_⟩
  · show Except.ok (NDArray.d1 (vocalRemovalBuf trivPrims ⟨2048, 512, 2048⟩ 44100 [[], []])) =
      Except.ok (NDArray.d1 [])
    exact congrArg (fun l => Except.ok (NDArray.d1 l)) hv
  · intro hcontra
    exact Except.noConfusion hcontra

/-- Claim C6 (amended, spec-modelled external primitives): for a
zero-length input buffer, `process` succeeds for every method and quality
and returns a zero-length output buffer — a silent empty output, with no
`EmptyBuffer` (or any other) error raised by the engine. -/
theorem empty_input_returns_empty {ι C : Type} (P : Prims ι C) (sr : ℚ) (quality : String)
    (hsq0 : P.sqrtQ 0 = 0)
    (hstft0 : ∀ i : ι, P.cabs (P.stft (getQualityParams quality).n_fft
        (getQualityParams quality).hop_length [] i) = 0)
    (histft0 : P.istft (getQualityParams quality).hop_length
        (fun i => P.polar 0 (P.cangle (P.stft (getQualityParams quality).n_fft
          (getQualityParams quality).hop_length [] i))) = [])
    (hfilt0 : ∀ o lo hi k, P.filtfiltButter o lo hi k [] = [])
    (hhpssN : P.hpss (1, 5) none [] = ([], []))
    (hhpssK : P.hpss (1, 5) (some (17, 17)) [] = ([], [])) :
    (process P (NDArray.d1 []) sr "vocal_removal" quality).2 = Except.ok (NDArray.d1 []) ∧
      (process P (NDArray.d1 []) sr "instrumental_isolation" quality).2 =
        Except.ok (NDArray.d1 []) ∧
      (process P (NDArray.d1 []) sr "harmonic_percussive" quality).2 =
        Except.ok (NDArray.d1 []) := by
  have hv := vocal_zero P (getQualityParams quality) sr 0 hsq0 hstft0 histft0 hfilt0
  have hi := instr_zero P 0 hsq0 hhpssN
  have hh := harm_zero P 0 hsq0 hhpssK
  refine ⟨?_, ?_, ?_⟩
  · show Except.ok (NDArray.d1 (vocalRemovalBuf P (getQualityParams quality)
        sr [[], []])) = Except.ok (NDArray.d1 [])
    exact congrArg (fun l => Except.ok (NDArray.d1 l)) hv
  · show Except.ok (NDArray.d1 (instrumentalBuf P [[], []])) = Except.ok (NDArray.d1 [])
    exact congrArg (fun l => Except.ok (NDArray.d1 l)) hi
  · show Except.ok (NDArray.d1 (harmonicBuf P [[], []])) = Except.ok (NDArray.d1 [])
    exact congrArg (fun l => Except.ok (NDArray.d1 l)) hh

theorem empty_input_returns_empty_witness :
    (process trivPrims (NDArray.d1 []) 48000 "vocal_removal" "low").2 =
        Except.ok (NDArray.d1 []) ∧
      (process trivPrims (NDArray.d1 []) 48000 "instrumental_isolation" "low").2 =
        Except.ok (NDArray.d1 []) ∧
      (process trivPrims (NDArray.d1 []) 48000 "harmonic_percussive" "low").2 =
        Except.ok (NDArray.d1 []) :=
  empty_input_returns_empty trivPrims 48000 "low" rfl (fun _ => rfl) rfl
    (fun _ _ _ _ => rfl) rfl rfl

/-- Claim C9 (code evaluation): container selection by requested extension.
Lowercase `.flac` and uppercase `.FLAC` give FLAC, unrecognized extensions
fall back to WAV, lowercase `.wav` gives WAV — but the uppercase `.WAV`
request keeps the `.WAV` suffix while selecting the FLAC container,
because the format comparison `ext == '.wav'` is case-sensitive although
extension recognition used `ext.lower()`. -/
theorem save_format_by_ext :
    chosenFormat ".flac" = SndFormat.flac ∧ chosenFormat ".FLAC" = SndFormat.flac ∧
      chosenFormat ".wav" = SndFormat.wav ∧ chosenFormat ".mp3" = SndFormat.wav ∧
      chosenFormat ".ogg" = SndFormat.wav ∧ chosenExt ".mp3" = ".wav" ∧
      chosenFormat ".WAV" = SndFormat.flac ∧ chosenExt ".WAV" = ".WAV" := by
  decide

end MusicRemover
